import Mathlib

/-!
Verification of the Minesweeper grid engine and its UI session layer.

The session layer (`openAt`, `flagAt`, `chordAt`, `gameOver`, `checkWin`,
`ensureMinesPlaced`, `newGame`, `sanitizeCfg`, `validateCustom`, `applyConfig`)
is translated from `src/unnamed/part_001` (the IIFE UI module).  The grid
engine itself (`game.js`: `GameStatus`, `createEmptyGrid`, `placeMines`,
`openCell`, `toggleFlag`, `countOpenSafe`, `chordOpen`) is not present under
`src/`; those definitions are modelled from the specification (spec.md §3,
§4.1) and are marked as such in their doc comments.

JavaScript booleans become `Bool`; the per-cell field `open` is called
`isOpen` here because `open` is a Lean keyword.  Grids are rectangular
`rows × cols` matrices of cells; we represent a grid by its dimensions and a
total function from coordinates to cells (coordinates outside the bounds map
to phantom cells that no operation treats as part of the board).  The
injectable source of randomness for mine placement (spec.md §9) is an
explicit list `picks` of candidate positions.
-/

/-- A board position: zero-based (row, col). -/
abbrev Pos : Type := Nat × Nat

/-- Modelled from the spec: `game.js` is missing from `src/`; spec.md §3
defines a Cell as `mine/open/flag` booleans plus `num`, the count of
mine-bearing neighbors.  `isOpen` models the source field `open`. -/
structure Cell where
  mine : Bool
  isOpen : Bool
  flag : Bool
  num : Nat
deriving DecidableEq, Repr

/-- Modelled from the spec: `game.js` is missing from `src/`; spec.md §3
defines GameStatus as the enumeration READY / RUNNING / WON / LOST. -/
inductive GameStatus where
  | READY
  | RUNNING
  | WON
  | LOST
deriving DecidableEq, Repr

/-- Modelled from the spec: `game.js` is missing from `src/`; spec.md §3
defines a Grid as a rectangular `rows × cols` array of Cells addressed by
zero-based (row, col).  We store the dimensions and a total lookup
function. -/
structure Grid where
  rows : Nat
  cols : Nat
  cell : Pos → Cell

/-- A position lies on the board. -/
def inBounds (g : Grid) (p : Pos) : Prop :=
  p.1 < g.rows ∧ p.2 < g.cols

instance (g : Grid) (p : Pos) : Decidable (inBounds g p) :=
  inferInstanceAs (Decidable (_ ∧ _))

/-- All valid positions of a grid, as a finite set. -/
def allCells (g : Grid) : Finset Pos :=
  Finset.range g.rows ×ˢ Finset.range g.cols

theorem mem_allCells (g : Grid) (p : Pos) :
    p ∈ allCells g ↔ inBounds g p := by
  cases p with
  | mk r c =>
    simp [allCells, inBounds, Finset.mem_product]

/-- Two positions are neighbors: distinct, and within one step in each
coordinate (the classic 8-neighborhood, with no wraparound). -/
def adj (p q : Pos) : Prop :=
  p ≠ q ∧ Nat.dist p.1 q.1 ≤ 1 ∧ Nat.dist p.2 q.2 ≤ 1

instance (p q : Pos) : Decidable (adj p q) :=
  inferInstanceAs (Decidable (_ ∧ _))

theorem adj_symm {p q : Pos} (h : adj p q) : adj q p := by
  obtain ⟨hne, h1, h2⟩ := h
  exact ⟨fun h => hne h.symm, by rwa [Nat.dist_comm], by rwa [Nat.dist_comm]⟩

/-- Modelled from the spec: `game.js` is missing from `src/`; spec.md §4.1
`createEmptyGrid(rows, cols)` produces a grid with every cell in the default
unopened / unflagged / non-mine state with `num = 0`. -/
def createEmptyGrid (rows cols : Nat) : Grid :=
  { rows := rows, cols := cols,
    cell := fun _ => { mine := false, isOpen := false, flag := false, num := 0 } }

/-- A cell eligible for flood-fill traversal: on the board, not a mine,
not flagged (spec.md §4.1: a flag is a hard block), and `num = 0`. -/
def zeroOk (g : Grid) (q : Pos) : Prop :=
  inBounds g q ∧ (g.cell q).mine = false ∧ (g.cell q).flag = false ∧ (g.cell q).num = 0

instance (g : Grid) (q : Pos) : Decidable (zeroOk g q) :=
  inferInstanceAs (Decidable (_ ∧ _))

/-- One breadth-first expansion level of the flood fill: add every on-board
zero cell adjacent to a zero cell already in the set. -/
def expandOnce (g : Grid) (S : Finset Pos) : Finset Pos :=
  S ∪ (allCells g).filter (fun q => zeroOk g q ∧ ∃ a ∈ S, zeroOk g a ∧ adj a q)

/-- Modelled from the spec: `game.js` is missing from `src/`; spec.md §4.1
prescribes a breadth-first expansion over the connected component of
zero-`num` cells, visiting each cell at most once and terminating on any
finite grid.  Level-by-level expansion stabilizes after at most
`(allCells g).card + 1` rounds, so iterating that many times computes the
full component. -/
def floodSet (g : Grid) (p : Pos) : Finset Pos :=
  (expandOnce g)^[(allCells g).card + 1] {p}

/-- Modelled from the spec: `game.js` is missing from `src/`; spec.md §4.1:
the numbered border of the zero-region — every non-mine, non-flagged cell
with `num > 0` adjacent to a zero cell of the region. -/
def borderOf (g : Grid) (S : Finset Pos) : Finset Pos :=
  (allCells g).filter (fun q =>
    (g.cell q).mine = false ∧ (g.cell q).flag = false ∧ (g.cell q).num ≠ 0 ∧
      ∃ a ∈ S, zeroOk g a ∧ adj a q)

/-- All valid positions of a grid in row-major order (the iteration order of
the engine's nested `for` loops). -/
def allCellsList (g : Grid) : List Pos :=
  (List.range g.rows).flatMap (fun r => (List.range g.cols).map (fun c => (r, c)))

/-- Open every cell of a set (leaving all other fields untouched). -/
def setOpenMany (g : Grid) (S : Finset Pos) : Grid :=
  { g with cell := fun q => if q ∈ S then { g.cell q with isOpen := true } else g.cell q }

/-- Result of `openCell`: the newly opened coordinates, whether a mine was
hit, and the updated grid (the JS engine mutates the grid in place; here the
new grid is returned). -/
structure OpenOut where
  opened : List Pos
  hitMine : Bool
  grid : Grid

/-- Modelled from the spec: `game.js` is missing from `src/`; spec.md §4.1
`openCell(grid, row, col)`: no-op when the target is out of bounds, already
open, or flagged; a mine is marked open and reported as `hitMine`; a numbered
cell opens alone; a zero cell flood-fills its connected zero-region plus the
numbered border.  `opened` lists the newly opened coordinates. -/
def openCell (g : Grid) (r c : Nat) : OpenOut :=
  let p : Pos := (r, c)
  if ¬ inBounds g p ∨ (g.cell p).isOpen = true ∨ (g.cell p).flag = true then
    { opened := [], hitMine := false, grid := g }
  else if (g.cell p).mine = true then
    { opened := [p], hitMine := true, grid := setOpenMany g {p} }
  else if (g.cell p).num ≠ 0 then
    { opened := [p], hitMine := false, grid := setOpenMany g {p} }
  else
    let region := floodSet g p ∪ borderOf g (floodSet g p)
    { opened := (allCellsList g).filter (fun q => q ∈ region ∧ (g.cell q).isOpen = false),
      hitMine := false,
      grid := setOpenMany g region }

/-- The reserved safe region for the first click: the clicked cell first,
then its existing neighbors in row-major order, capped per spec.md §4.1 at
`min(9, totalCells − 1)` cells while always retaining at least the clicked
cell itself. -/
def safeRegion (g : Grid) (safeR safeC : Nat) : List Pos :=
  let full := (safeR, safeC) :: (allCellsList g).filter (fun q => adj (safeR, safeC) q)
  full.take (min 9 (max 1 (g.rows * g.cols - 1)))

/-- Modelled from the spec: `game.js` is missing from `src/`; spec.md §4.1
`placeMines(grid, mineCount, safeRow, safeCol)` selects `mineCount` distinct
cells outside the reserved safe region as mines and recomputes every cell's
`num` as its adjacent-mine count.  The injectable random source (spec.md §9)
is the `picks` candidate list; infeasible mine counts leave the grid
unmodified (spec.md §7, `InfeasibleMineCount`). -/
def placeMines (g : Grid) (mineCount : Nat) (safeR safeC : Nat) (picks : List Pos) : Grid :=
  let excluded := safeRegion g safeR safeC
  if mineCount > g.rows * g.cols - excluded.length then g
  else
    let mines := ((picks.filter (fun q => inBounds g q ∧ q ∉ excluded)).dedup).take mineCount
    { g with cell := fun q =>
        { mine := decide (q ∈ mines),
          isOpen := (g.cell q).isOpen,
          flag := (g.cell q).flag,
          num := (mines.filter (fun m => adj q m)).length } }

/-- Modelled from the spec: `game.js` is missing from `src/`; spec.md §4.1
`toggleFlag(grid, row, col)` flips the flag of an unopened in-bounds cell and
reports whether a change happened. -/
def toggleFlag (g : Grid) (r c : Nat) : Bool × Grid :=
  let p : Pos := (r, c)
  if ¬ inBounds g p ∨ (g.cell p).isOpen = true then (false, g)
  else (true,
    { g with cell := fun q => if q = p then { g.cell q with flag := !(g.cell q).flag } else g.cell q })

/-- Modelled from the spec: `game.js` is missing from `src/`; spec.md §4.1
`countOpenSafe(grid)` recomputes from live cell state the number of open
non-mine cells and the total number of non-mine cells. -/
def countOpenSafe (g : Grid) : Nat × Nat :=
  (((allCells g).filter (fun q => (g.cell q).mine = false ∧ (g.cell q).isOpen = true)).card,
   ((allCells g).filter (fun q => (g.cell q).mine = false)).card)

/-- Result of `chordOpen`: whether the chord fired, and whether it detonated
a mine; plus the updated grid. -/
structure ChordOut where
  did : Bool
  hitMine : Bool
  grid : Grid

/-- Modelled from the spec: `game.js` is missing from `src/`; spec.md §4.1
`chordOpen(grid, row, col)`: meaningful only on an open numbered cell whose
flagged-neighbor count equals its `num`; then every unflagged, unopened
neighbor is revealed individually with `openCell` semantics, reporting
whether any revealed neighbor was a mine. -/
def chordOpen (g : Grid) (r c : Nat) : ChordOut :=
  let p : Pos := (r, c)
  if ¬ inBounds g p ∨ (g.cell p).isOpen = false ∨ (g.cell p).num = 0 then
    { did := false, hitMine := false, grid := g }
  else
    let nbrs := (allCellsList g).filter (fun q => adj p q)
    if ((nbrs.filter (fun q => (g.cell q).flag = true)).length ≠ (g.cell p).num) then
      { did := false, hitMine := false, grid := g }
    else
      let out := nbrs.foldl
        (fun (acc : Bool × Grid) q =>
          let res := openCell acc.2 q.1 q.2
          (acc.1 || res.hitMine, res.grid))
        (false, g)
      { did := true, hitMine := out.1, grid := out.2 }

/-- The session state owned by `createUI` in `src/unnamed/part_001` (lines
173–186), restricted to the fields that participate in game logic: the
configured dimensions and mine count, the grid, the status, and the
`firstClick` flag.  `placeCount` is a ghost instrumentation counter (not in
the source) that counts the `placeMines` invocations of the current game. -/
structure SessionState where
  rows : Nat
  cols : Nat
  mines : Nat
  grid : Grid
  status : GameStatus
  firstClick : Bool
  placeCount : Nat

/-- `newGame` of `src/unnamed/part_001` (lines 331–346): rebuild an empty
grid from the configured dimensions, reset the status to READY and rearm the
first-click flag.  Timer / rendering / focus effects are external to the
game state and are not modelled. -/
def newGame (s : SessionState) : SessionState :=
  { s with grid := createEmptyGrid s.rows s.cols,
           status := GameStatus.READY,
           firstClick := true,
           placeCount := 0 }

/-- A fresh session for a given configuration, as produced by `newGame`. -/
def mkSession (rows cols mines : Nat) : SessionState :=
  newGame { rows := rows, cols := cols, mines := mines,
            grid := createEmptyGrid rows cols,
            status := GameStatus.READY, firstClick := true, placeCount := 0 }

/-- `ensureMinesPlaced` of `src/unnamed/part_001` (lines 384–390): on the
first click only, place the mines with the clicked cell as the safe cell,
clear `firstClick`, and transition READY → RUNNING. -/
def ensureMinesPlaced (s : SessionState) (firstR firstC : Nat) (picks : List Pos) :
    SessionState :=
  if s.firstClick = false then s
  else
    { s with grid := placeMines s.grid s.mines firstR firstC picks,
             firstClick := false,
             status := GameStatus.RUNNING,
             placeCount := s.placeCount + 1 }

/-- The end-of-game reveal loops of `gameOver` in `src/unnamed/part_001`
(lines 363–372): on a win open every non-mine cell, on a loss open every
mine cell (the nested loops range over the board only). -/
def revealEnd (g : Grid) (win : Bool) : Grid :=
  { g with cell := fun q =>
      if inBounds g q ∧ (g.cell q).mine = !win then { g.cell q with isOpen := true }
      else g.cell q }

/-- `gameOver` of `src/unnamed/part_001` (lines 358–377): stop the game with
the given outcome and reveal the final grid via `revealEnd`.  Timer, face,
sound and dialog effects are external to the game state. -/
def gameOver (s : SessionState) (win : Bool) : SessionState :=
  { s with status := if win then GameStatus.WON else GameStatus.LOST,
           grid := revealEnd s.grid win }

/-- `checkWin` of `src/unnamed/part_001` (lines 379–382): finish with a win
exactly when every non-mine cell is open and the game is not already won. -/
def checkWin (s : SessionState) : SessionState :=
  if (countOpenSafe s.grid).1 = (countOpenSafe s.grid).2 ∧ s.status ≠ GameStatus.WON then
    gameOver s true
  else s

/-- `openAt` of `src/unnamed/part_001` (lines 392–411): reject in terminal
states; place mines on the first click; reveal via `openCell`; on a mine hit
mark the clicked cell open and lose, otherwise check for a win. -/
def openAt (s : SessionState) (r c : Nat) (picks : List Pos) : SessionState :=
  if s.status = GameStatus.LOST ∨ s.status = GameStatus.WON then s
  else
    let s1 := ensureMinesPlaced s r c picks
    let res := openCell s1.grid r c
    if res.hitMine then
      gameOver { s1 with grid :=
        { res.grid with cell := fun q =>
            if q = (r, c) then { res.grid.cell q with isOpen := true } else res.grid.cell q } }
        false
    else
      checkWin { s1 with grid := res.grid }

/-- `flagAt` of `src/unnamed/part_001` (lines 413–425): reject in terminal
states and on open cells; otherwise toggle the flag. -/
def flagAt (s : SessionState) (r c : Nat) : SessionState :=
  if s.status = GameStatus.LOST ∨ s.status = GameStatus.WON then s
  else if (s.grid.cell (r, c)).isOpen = true then s
  else
    let out := toggleFlag s.grid r c
    if out.1 = false then s
    else { s with grid := out.2 }

/-- `chordAt` of `src/unnamed/part_001` (lines 427–443): only while RUNNING;
a non-firing chord changes nothing; a detonating chord loses, otherwise
check for a win. -/
def chordAt (s : SessionState) (r c : Nat) : SessionState :=
  if s.status ≠ GameStatus.RUNNING then s
  else
    let res := chordOpen s.grid r c
    if res.did = false then s
    else if res.hitMine then gameOver { s with grid := res.grid } false
    else checkWin { s with grid := res.grid }

/-- A difficulty configuration object as it reaches `sanitizeCfg` /
`applyConfig`: each field is the result of the JavaScript `Number(...)`
coercion, with `none` standing for a non-finite result (`NaN`, `±Infinity`),
which `Number.isFinite` rejects. -/
structure Cfg where
  rows : Option ℚ
  cols : Option ℚ
  mines : Option ℚ

/-- A sanitized configuration: the numeric fields admitted by
`sanitizeCfg`. -/
structure CfgR where
  rows : ℚ
  cols : ℚ
  mines : ℚ
deriving DecidableEq, Repr

/-- The beginner preset of the `DIFFICULTIES` table in
`src/unnamed/part_001` (line 17): 9 × 9 with 10 mines. -/
def beginnerCfg : CfgR := { rows := 9, cols := 9, mines := 10 }

/-- `sanitizeCfg` of `src/unnamed/part_001` (lines 96–108): `null` and
configurations with non-finite fields or out-of-range dimensions / mine
counts are rejected (`null` result); otherwise the coerced numeric fields
are returned. -/
def sanitizeCfg (cfg : Option Cfg) : Option CfgR :=
  match cfg with
  | none => none
  | some c =>
    match c.rows, c.cols, c.mines with
    | some r, some co, some m =>
      if r < 5 ∨ r > 30 then none
      else if co < 5 ∨ co > 40 then none
      else
        let cells := r * co
        let reserve := min 9 (cells - 1)
        if m < 1 ∨ m > cells - reserve then none
        else some { rows := r, cols := co, mines := m }
    | _, _, _ => none

/-- The error outcomes of `validateCustom` in `src/unnamed/part_001`
(lines 199–209), one constructor per distinct message string: non-finite
input, row range, column range, minimum mine count, and excessive mine count
(carrying the suggested maximum interpolated into the message). -/
inductive CustomError where
  | notFinite
  | rowsRange
  | colsRange
  | minesMin
  | minesMany (suggested : ℚ)
deriving DecidableEq

/-- `validateCustom` of `src/unnamed/part_001` (lines 199–209): `none`
(JS `null`) accepts the configuration, otherwise the first failing check's
error message is returned. -/
def validateCustom (rows cols mines : Option ℚ) : Option CustomError :=
  match rows, cols, mines with
  | some r, some c, some m =>
    if r < 5 ∨ r > 30 then some CustomError.rowsRange
    else if c < 5 ∨ c > 40 then some CustomError.colsRange
    else if m < 1 then some CustomError.minesMin
    else
      let cells := r * c
      let reserve := min 9 (cells - 1)
      if m > cells - reserve then some (CustomError.minesMany (cells - reserve))
      else none
  | _, _, _ => some CustomError.notFinite

/-- The configuration selection performed by `applyConfig` in
`src/unnamed/part_001` (lines 190–197): `sanitizeCfg(cfg) ||
DIFFICULTIES.beginner`.  The selected fields are installed as the session's
`rows` / `cols` / `mines` and a new game is started with them. -/
def applyConfig (cfg : Option Cfg) : CfgR :=
  (sanitizeCfg cfg).getD beginnerCfg

/-- The session states reachable through the session's operations, starting
from any freshly configured game.  `configStep` over-approximates
`applyConfig` by allowing arbitrary dimensions; operation arguments are
unconstrained. -/
inductive Reach : SessionState → Prop where
  | init (rows cols mines : Nat) : Reach (mkSession rows cols mines)
  | newGameStep {s : SessionState} : Reach s → Reach (newGame s)
  | configStep {s : SessionState} (rows cols mines : Nat) :
      Reach s → Reach (newGame { s with rows := rows, cols := cols, mines := mines })
  | openStep {s : SessionState} (r c : Nat) (picks : List Pos) :
      Reach s → Reach (openAt s r c picks)
  | flagStep {s : SessionState} (r c : Nat) : Reach s → Reach (flagAt s r c)
  | chordStep {s : SessionState} (r c : Nat) : Reach s → Reach (chordAt s r c)
  | overStep {s : SessionState} (win : Bool) : Reach s → Reach (gameOver s win)

/-- One flood-fill traversal step (spec characterization): both endpoints
are traversable zero cells and they are neighbors. -/
def zstep (g : Grid) (a b : Pos) : Prop :=
  zeroOk g a ∧ zeroOk g b ∧ adj a b

/-- Spec characterization of the connected zero-region: reachability from
the clicked cell through zero-cell steps. -/
def zeroReach (g : Grid) (p q : Pos) : Prop :=
  Relation.ReflTransGen (zstep g) p q

/-- Spec characterization of the numbered border of the zero-region reached
from `p`: a non-mine, non-flagged numbered board cell adjacent to some cell
of the region. -/
def inBorder (g : Grid) (p q : Pos) : Prop :=
  inBounds g q ∧ (g.cell q).mine = false ∧ (g.cell q).flag = false ∧
    (g.cell q).num ≠ 0 ∧ ∃ a, zeroReach g p a ∧ adj a q

theorem zeroReach_zeroOk {g : Grid} {p q : Pos} (hp : zeroOk g p)
    (h : zeroReach g p q) : zeroOk g q := by
  induction h with
  | refl => exact hp
  | tail _ hstep _ => exact hstep.2.1

theorem zeroReach_eq_or_zeroOk {g : Grid} {p q : Pos}
    (h : zeroReach g p q) : q = p ∨ zeroOk g q := by
  induction h with
  | refl => exact Or.inl rfl
  | tail _ hstep _ => exact Or.inr hstep.2.1

theorem subset_expandOnce (g : Grid) (S : Finset Pos) : S ⊆ expandOnce g S :=
  Finset.subset_union_left

theorem iterate_expandOnce_sound (g : Grid) (p : Pos) :
    ∀ k, ∀ q ∈ (expandOnce g)^[k] {p}, zeroReach g p q := by
  intro k
  induction k with
  | zero =>
    intro q hq
    rw [Function.iterate_zero_apply, Finset.mem_singleton] at hq
    exact hq ▸ Relation.ReflTransGen.refl
  | succ k ih =>
    intro q hq
    rw [Function.iterate_succ_apply', expandOnce, Finset.mem_union] at hq
    rcases hq with hq | hq
    · exact ih q hq
    · rw [Finset.mem_filter] at hq
      obtain ⟨-, hqOk, a, haS, haOk, hadj⟩ := hq
      exact Relation.ReflTransGen.tail (ih a haS) ⟨haOk, hqOk, hadj⟩

theorem iterate_expandOnce_mono (g : Grid) (p : Pos) (k : Nat) :
    (expandOnce g)^[k] {p} ⊆ (expandOnce g)^[k + 1] {p} := by
  rw [Function.iterate_succ_apply']
  exact subset_expandOnce g _

theorem iterate_expandOnce_subset (g : Grid) (p : Pos) :
    ∀ k, (expandOnce g)^[k] {p} ⊆ insert p (allCells g) := by
  intro k
  induction k with
  | zero =>
    rw [Function.iterate_zero_apply]
    intro q hq
    rw [Finset.mem_singleton] at hq
    subst hq
    exact Finset.mem_insert_self q _
  | succ k ih =>
    rw [Function.iterate_succ_apply', expandOnce]
    refine Finset.union_subset ih ?_
    intro q hq
    exact Finset.mem_insert_of_mem (Finset.mem_of_mem_filter q hq)

theorem iterate_expandOnce_stabilizes (g : Grid) (p : Pos) :
    ∀ k, (expandOnce g)^[k + 1] {p} = (expandOnce g)^[k] {p} ∨
      k + 1 ≤ ((expandOnce g)^[k] {p}).card := by
  intro k
  induction k with
  | zero =>
    right
    rw [Function.iterate_zero_apply, Finset.card_singleton]
  | succ k ih =>
    by_cases heq : (expandOnce g)^[k + 1 + 1] {p} = (expandOnce g)^[k + 1] {p}
    · exact Or.inl heq
    · right
      have hne : (expandOnce g)^[k + 1] {p} ≠ (expandOnce g)^[k] {p} := by
        intro h
        apply heq
        calc (expandOnce g)^[k + 1 + 1] {p}
            = expandOnce g ((expandOnce g)^[k + 1] {p}) :=
              Function.iterate_succ_apply' (expandOnce g) (k + 1) {p}
          _ = expandOnce g ((expandOnce g)^[k] {p}) := by rw [h]
          _ = (expandOnce g)^[k + 1] {p} :=
              (Function.iterate_succ_apply' (expandOnce g) k {p}).symm
      have hcard : k + 1 ≤ ((expandOnce g)^[k] {p}).card := by
        rcases ih with ih | ih
        · exact absurd ih hne
        · exact ih
      have hss : (expandOnce g)^[k] {p} ⊂ (expandOnce g)^[k + 1] {p} :=
        ⟨iterate_expandOnce_mono g p k, fun hsub =>
          hne (Finset.Subset.antisymm hsub (iterate_expandOnce_mono g p k))⟩
      have hlt := Finset.card_lt_card hss
      omega

theorem floodSet_fixed (g : Grid) (p : Pos) :
    expandOnce g (floodSet g p) = floodSet g p := by
  have h := iterate_expandOnce_stabilizes g p ((allCells g).card + 1)
  rcases h with h | h
  · calc expandOnce g (floodSet g p)
        = (expandOnce g)^[(allCells g).card + 1 + 1] {p} :=
          (Function.iterate_succ_apply' (expandOnce g) ((allCells g).card + 1) {p}).symm
      _ = floodSet g p := h
  · exfalso
    have hsub := iterate_expandOnce_subset g p ((allCells g).card + 1)
    have hcard := Finset.card_le_card hsub
    have hins : (insert p (allCells g)).card ≤ (allCells g).card + 1 :=
      Finset.card_insert_le p (allCells g)
    omega

theorem mem_floodSet_self (g : Grid) (p : Pos) : p ∈ floodSet g p := by
  have : ∀ k, p ∈ (expandOnce g)^[k] {p} := by
    intro k
    induction k with
    | zero => rw [Function.iterate_zero_apply]; exact Finset.mem_singleton_self p
    | succ k ih => exact iterate_expandOnce_mono g p k ih
  exact this _

theorem mem_floodSet_iff (g : Grid) (p q : Pos) :
    q ∈ floodSet g p ↔ zeroReach g p q := by
  constructor
  · intro hq
    exact iterate_expandOnce_sound g p _ q hq
  · intro hq
    induction hq with
    | refl => exact mem_floodSet_self g p
    | tail hra hstep ih =>
      rw [← floodSet_fixed g p, expandOnce, Finset.mem_union]
      right
      rw [Finset.mem_filter]
      exact ⟨(mem_allCells g _).mpr hstep.2.1.1, hstep.2.1, _, ih, hstep.1, hstep.2.2⟩

theorem mem_borderOf_iff (g : Grid) (p q : Pos) (hp : zeroOk g p) :
    q ∈ borderOf g (floodSet g p) ↔ inBorder g p q := by
  rw [borderOf, Finset.mem_filter, mem_allCells]
  constructor
  · rintro ⟨hin, hmn, hfl, hnum, a, haS, -, hadj⟩
    exact ⟨hin, hmn, hfl, hnum, a, (mem_floodSet_iff g p a).mp haS, hadj⟩
  · rintro ⟨hin, hmn, hfl, hnum, a, hreach, hadj⟩
    exact ⟨hin, hmn, hfl, hnum, a, (mem_floodSet_iff g p a).mpr hreach,
      zeroReach_zeroOk hp hreach, hadj⟩

theorem mem_floodRegion_iff (g : Grid) (p q : Pos) (hp : zeroOk g p) :
    q ∈ floodSet g p ∪ borderOf g (floodSet g p) ↔
      zeroReach g p q ∨ inBorder g p q := by
  rw [Finset.mem_union, mem_floodSet_iff, mem_borderOf_iff g p q hp]

theorem openCell_zero_eq (g : Grid) (r c : Nat)
    (hin : inBounds g (r, c)) (hop : (g.cell (r, c)).isOpen = false)
    (hfl : (g.cell (r, c)).flag = false) (hmn : (g.cell (r, c)).mine = false)
    (hnum : (g.cell (r, c)).num = 0) :
    openCell g r c =
      { opened := (allCellsList g).filter (fun q =>
          q ∈ floodSet g (r, c) ∪ borderOf g (floodSet g (r, c)) ∧
            (g.cell q).isOpen = false),
        hitMine := false,
        grid := setOpenMany g (floodSet g (r, c) ∪ borderOf g (floodSet g (r, c))) } := by
  rw [openCell]
  rw [if_neg (by simp [hin, hop, hfl]), if_neg (by simp [hmn]),
    if_neg (fun h => h hnum)]

/-- C2: opening a non-mine, non-flagged, unopened zero-`num` cell opens
exactly the connected zero-region of that cell plus its numbered border and
nothing else, hits no mine, and never opens a flagged or mine cell. -/
theorem C2_openCell_flood_exact (g : Grid) (r c : Nat)
    (hin : inBounds g (r, c)) (hop : (g.cell (r, c)).isOpen = false)
    (hfl : (g.cell (r, c)).flag = false) (hmn : (g.cell (r, c)).mine = false)
    (hnum : (g.cell (r, c)).num = 0) :
    (openCell g r c).hitMine = false ∧
    (∀ q : Pos, ((openCell g r c).grid.cell q).isOpen = true ↔
        ((g.cell q).isOpen = true ∨ zeroReach g (r, c) q ∨ inBorder g (r, c) q)) ∧
    (∀ q : Pos, (g.cell q).flag = true ∨ (g.cell q).mine = true →
        ((openCell g r c).grid.cell q).isOpen = (g.cell q).isOpen) := by
  have hpOk : zeroOk g (r, c) := ⟨hin, hmn, hfl, hnum⟩
  rw [openCell_zero_eq g r c hin hop hfl hmn hnum]
  refine ⟨rfl, ?_, ?_⟩
  · intro q
    by_cases hq : q ∈ floodSet g (r, c) ∪ borderOf g (floodSet g (r, c))
    · simp only [setOpenMany, if_pos hq]
      simp only [true_iff]
      exact Or.inr ((mem_floodRegion_iff g (r, c) q hpOk).mp hq)
    · simp only [setOpenMany, if_neg hq]
      rw [mem_floodRegion_iff g (r, c) q hpOk] at hq
      tauto
  · intro q hqbad
    have hq : q ∉ floodSet g (r, c) ∪ borderOf g (floodSet g (r, c)) := by
      rw [mem_floodRegion_iff g (r, c) q hpOk]
      rintro (hre | hbo)
      · rcases zeroReach_eq_or_zeroOk hre with heq | hok
        · subst heq
          rcases hqbad with h | h
          · rw [hfl] at h; exact Bool.false_ne_true h
          · rw [hmn] at h; exact Bool.false_ne_true h
        · rcases hqbad with h | h
          · rw [hok.2.2.1] at h; exact Bool.false_ne_true h
          · rw [hok.2.1] at h; exact Bool.false_ne_true h
      · rcases hqbad with h | h
        · rw [hbo.2.2.1] at h; exact Bool.false_ne_true h
        · rw [hbo.2.1] at h; exact Bool.false_ne_true h
    simp only [setOpenMany, if_neg hq]

theorem setOpenMany_mine (g : Grid) (S : Finset Pos) (q : Pos) :
    ((setOpenMany g S).cell q).mine = (g.cell q).mine := by
  rw [setOpenMany]
  by_cases hq : q ∈ S <;> simp [hq]

theorem setOpenMany_flag (g : Grid) (S : Finset Pos) (q : Pos) :
    ((setOpenMany g S).cell q).flag = (g.cell q).flag := by
  rw [setOpenMany]
  by_cases hq : q ∈ S <;> simp [hq]

theorem setOpenMany_num (g : Grid) (S : Finset Pos) (q : Pos) :
    ((setOpenMany g S).cell q).num = (g.cell q).num := by
  rw [setOpenMany]
  by_cases hq : q ∈ S <;> simp [hq]

theorem setOpenMany_dims (g : Grid) (S : Finset Pos) :
    (setOpenMany g S).rows = g.rows ∧ (setOpenMany g S).cols = g.cols :=
  ⟨rfl, rfl⟩

theorem openCell_grid_cases (g : Grid) (r c : Nat) :
    (openCell g r c).grid = g ∨ ∃ S : Finset Pos, (openCell g r c).grid = setOpenMany g S := by
  rw [openCell]
  split
  · exact Or.inl rfl
  · split
    · exact Or.inr ⟨_, rfl⟩
    · split
      · exact Or.inr ⟨_, rfl⟩
      · exact Or.inr ⟨_, rfl⟩

theorem openCell_mine (g : Grid) (r c : Nat) (q : Pos) :
    (((openCell g r c).grid).cell q).mine = (g.cell q).mine := by
  rcases openCell_grid_cases g r c with h | ⟨S, h⟩ <;> rw [h]
  exact setOpenMany_mine g S q

theorem openCell_flag (g : Grid) (r c : Nat) (q : Pos) :
    (((openCell g r c).grid).cell q).flag = (g.cell q).flag := by
  rcases openCell_grid_cases g r c with h | ⟨S, h⟩ <;> rw [h]
  exact setOpenMany_flag g S q

theorem openCell_num (g : Grid) (r c : Nat) (q : Pos) :
    (((openCell g r c).grid).cell q).num = (g.cell q).num := by
  rcases openCell_grid_cases g r c with h | ⟨S, h⟩ <;> rw [h]
  exact setOpenMany_num g S q

theorem openCell_dims (g : Grid) (r c : Nat) :
    ((openCell g r c).grid).rows = g.rows ∧ ((openCell g r c).grid).cols = g.cols := by
  rcases openCell_grid_cases g r c with h | ⟨S, h⟩ <;> rw [h]
  · exact ⟨rfl, rfl⟩
  · exact ⟨rfl, rfl⟩

theorem openCell_hitMine_of_not_mine (g : Grid) (r c : Nat)
    (h : (g.cell (r, c)).mine = false) : (openCell g r c).hitMine = false := by
  rw [openCell]
  split
  · rfl
  · split
    · next hcond => rw [h] at hcond; exact absurd hcond Bool.false_ne_true
    · split
      · rfl
      · rfl

theorem placeMines_isOpen (g : Grid) (m sr sc : Nat) (picks : List Pos) (q : Pos) :
    ((placeMines g m sr sc picks).cell q).isOpen = (g.cell q).isOpen := by
  rw [placeMines]
  split
  · rfl
  · rfl

theorem placeMines_flag (g : Grid) (m sr sc : Nat) (picks : List Pos) (q : Pos) :
    ((placeMines g m sr sc picks).cell q).flag = (g.cell q).flag := by
  rw [placeMines]
  split
  · rfl
  · rfl

theorem placeMines_dims (g : Grid) (m sr sc : Nat) (picks : List Pos) :
    (placeMines g m sr sc picks).rows = g.rows ∧ (placeMines g m sr sc picks).cols = g.cols := by
  rw [placeMines]
  split
  · exact ⟨rfl, rfl⟩
  · exact ⟨rfl, rfl⟩

theorem safeRegion_head_mem (g : Grid) (sr sc : Nat) :
    (sr, sc) ∈ safeRegion g sr sc := by
  rw [safeRegion]
  have h1 : 1 ≤ min 9 (max 1 (g.rows * g.cols - 1)) :=
    le_min (by norm_num) (le_max_left 1 _)
  obtain ⟨k, hk⟩ := Nat.exists_eq_add_of_le h1
  rw [hk, Nat.add_comm 1 k, List.take_succ_cons]
  exact List.mem_cons_self _ _

theorem placeMines_safe_not_mine (g : Grid) (m sr sc : Nat) (picks : List Pos)
    (h : (g.cell (sr, sc)).mine = false) :
    ((placeMines g m sr sc picks).cell (sr, sc)).mine = false := by
  rw [placeMines]
  split
  · exact h
  · simp only [decide_eq_false_iff_not]
    intro hmem
    have hded := List.mem_of_mem_take hmem
    have hfil := List.mem_dedup.mp hded
    have hpred := (List.mem_filter.mp hfil).2
    have hprop := of_decide_eq_true hpred
    exact hprop.2 (safeRegion_head_mem g sr sc)

theorem revealEnd_mine (g : Grid) (win : Bool) (q : Pos) :
    ((revealEnd g win).cell q).mine = (g.cell q).mine := by
  rw [revealEnd]
  dsimp only
  split
  · rfl
  · rfl

theorem revealEnd_flag (g : Grid) (win : Bool) (q : Pos) :
    ((revealEnd g win).cell q).flag = (g.cell q).flag := by
  rw [revealEnd]
  dsimp only
  split
  · rfl
  · rfl

theorem revealEnd_num (g : Grid) (win : Bool) (q : Pos) :
    ((revealEnd g win).cell q).num = (g.cell q).num := by
  rw [revealEnd]
  dsimp only
  split
  · rfl
  · rfl

theorem gameOver_mine (s : SessionState) (win : Bool) (q : Pos) :
    ((gameOver s win).grid.cell q).mine = (s.grid.cell q).mine :=
  revealEnd_mine s.grid win q

theorem gameOver_status (s : SessionState) (win : Bool) :
    (gameOver s win).status = if win then GameStatus.WON else GameStatus.LOST := rfl

theorem checkWin_cases (s : SessionState) :
    checkWin s = gameOver s true ∨ checkWin s = s := by
  rw [checkWin]
  split
  · exact Or.inl rfl
  · exact Or.inr rfl

theorem ensureMinesPlaced_of_firstClick (s : SessionState) (r c : Nat)
    (picks : List Pos) (hfc : s.firstClick = true) :
    ensureMinesPlaced s r c picks =
      { s with grid := placeMines s.grid s.mines r c picks,
               firstClick := false,
               status := GameStatus.RUNNING,
               placeCount := s.placeCount + 1 } := by
  rw [ensureMinesPlaced, if_neg (by simp [hfc])]

/-- C1: from a fresh game (status READY, `firstClick` set, no mines on the
board yet), the first reveal request places the mines with the clicked
coordinates as the safe cell before revealing, so the clicked cell is not a
mine after the call and the game cannot be lost by it. -/
theorem C1_first_reveal_never_mine (s : SessionState) (r c : Nat) (picks : List Pos)
    (hst : s.status = GameStatus.READY) (hfc : s.firstClick = true)
    (hfresh : ∀ q : Pos, (s.grid.cell q).mine = false) :
    ((openAt s r c picks).grid.cell (r, c)).mine = false ∧
    (openAt s r c picks).status ≠ GameStatus.LOST := by
  have h1 : (ensureMinesPlaced s r c picks).grid = placeMines s.grid s.mines r c picks := by
    rw [ensureMinesPlaced_of_firstClick s r c picks hfc]
  have h2 : (ensureMinesPlaced s r c picks).status = GameStatus.RUNNING := by
    rw [ensureMinesPlaced_of_firstClick s r c picks hfc]
  have hsafe : ((ensureMinesPlaced s r c picks).grid.cell (r, c)).mine = false := by
    rw [h1]
    exact placeMines_safe_not_mine s.grid s.mines r c picks (hfresh (r, c))
  have hhit : (openCell (ensureMinesPlaced s r c picks).grid r c).hitMine = false :=
    openCell_hitMine_of_not_mine _ r c hsafe
  have hopen : openAt s r c picks =
      checkWin { ensureMinesPlaced s r c picks with
                 grid := (openCell (ensureMinesPlaced s r c picks).grid r c).grid } := by
    rw [openAt, if_neg (by simp [hst])]
    simp only [hhit, Bool.false_eq_true, if_false]
  rw [hopen]
  constructor
  · rcases checkWin_cases { ensureMinesPlaced s r c picks with
      grid := (openCell (ensureMinesPlaced s r c picks).grid r c).grid } with hcw | hcw <;>
      rw [hcw]
    · rw [gameOver_mine]
      dsimp only
      rw [openCell_mine]
      exact hsafe
    · dsimp only
      rw [openCell_mine]
      exact hsafe
  · rcases checkWin_cases { ensureMinesPlaced s r c picks with
      grid := (openCell (ensureMinesPlaced s r c picks).grid r c).grid } with hcw | hcw <;>
      rw [hcw]
    · rw [gameOver_status]
      simp
    · dsimp only
      rw [h2]
      simp

theorem C1_first_reveal_never_mine_witness :
    ((openAt (mkSession 5 5 2) 0 0 [(3, 3), (3, 4)]).grid.cell (0, 0)).mine = false ∧
    (openAt (mkSession 5 5 2) 0 0 [(3, 3), (3, 4)]).status ≠ GameStatus.LOST :=
  C1_first_reveal_never_mine (mkSession 5 5 2) 0 0 [(3, 3), (3, 4)] rfl rfl (fun _ => rfl)

/-- C4: once the status is WON or LOST, the mutating operations `openAt`,
`flagAt` and `chordAt` return the state unchanged. -/
theorem C4_terminal_ops_no_effect (s : SessionState) (r c : Nat) (picks : List Pos)
    (h : s.status = GameStatus.WON ∨ s.status = GameStatus.LOST) :
    openAt s r c picks = s ∧ flagAt s r c = s ∧ chordAt s r c = s := by
  have h' : s.status = GameStatus.LOST ∨ s.status = GameStatus.WON := h.symm
  have hnr : s.status ≠ GameStatus.RUNNING := by
    rcases h with h | h <;> rw [h] <;> decide
  refine ⟨?_, ?_, ?_⟩
  · rw [openAt, if_pos h']
  · rw [flagAt, if_pos h']
  · rw [chordAt, if_pos hnr]

theorem C4_terminal_ops_no_effect_witness :
    openAt { mkSession 5 5 2 with status := GameStatus.WON } 0 0 [] =
      { mkSession 5 5 2 with status := GameStatus.WON } ∧
    flagAt { mkSession 5 5 2 with status := GameStatus.WON } 0 0 =
      { mkSession 5 5 2 with status := GameStatus.WON } ∧
    chordAt { mkSession 5 5 2 with status := GameStatus.WON } 0 0 =
      { mkSession 5 5 2 with status := GameStatus.WON } :=
  C4_terminal_ops_no_effect { mkSession 5 5 2 with status := GameStatus.WON } 0 0 []
    (Or.inl rfl)

/-- C9: `gameOver` opens every on-board mine cell on a loss and every
on-board non-mine cell on a win, leaves the `open` state of the opposite
kind of cell unchanged, and never touches `flag`, `num` or `mine`. -/
theorem C9_gameOver_reveal (s : SessionState) (win : Bool) (q : Pos)
    (hq : inBounds s.grid q) :
    ((gameOver s win).grid.cell q).flag = (s.grid.cell q).flag ∧
    ((gameOver s win).grid.cell q).num = (s.grid.cell q).num ∧
    ((gameOver s win).grid.cell q).mine = (s.grid.cell q).mine ∧
    ((gameOver s win).grid.cell q).isOpen =
      ((s.grid.cell q).isOpen || ((s.grid.cell q).mine == !win)) := by
  refine ⟨revealEnd_flag s.grid win q, revealEnd_num s.grid win q,
    revealEnd_mine s.grid win q, ?_⟩
  show ((revealEnd s.grid win).cell q).isOpen = _
  rw [revealEnd]
  dsimp only
  by_cases hm : (s.grid.cell q).mine = !win
  · rw [if_pos ⟨hq, hm⟩]
    simp [hm]
  · rw [if_neg (fun hc => hm hc.2)]
    simp [hm]

theorem C9_gameOver_reveal_witness :
    ((gameOver (mkSession 5 5 2) false).grid.cell (0, 0)).flag =
      ((mkSession 5 5 2).grid.cell (0, 0)).flag ∧
    ((gameOver (mkSession 5 5 2) false).grid.cell (0, 0)).num =
      ((mkSession 5 5 2).grid.cell (0, 0)).num ∧
    ((gameOver (mkSession 5 5 2) false).grid.cell (0, 0)).mine =
      ((mkSession 5 5 2).grid.cell (0, 0)).mine ∧
    ((gameOver (mkSession 5 5 2) false).grid.cell (0, 0)).isOpen =
      (((mkSession 5 5 2).grid.cell (0, 0)).isOpen ||
        (((mkSession 5 5 2).grid.cell (0, 0)).mine == !false)) :=
  C9_gameOver_reveal (mkSession 5 5 2) false (0, 0) (by constructor <;> decide)

/-- C6: `validateCustom` accepts (returns `null`) exactly the configurations
whose three fields are finite numbers with 5 ≤ rows ≤ 30, 5 ≤ cols ≤ 40,
mines ≥ 1 and mines ≤ rows·cols − min(9, rows·cols − 1); otherwise it
returns an error message. -/
theorem C6_validateCustom_iff (rows cols mines : Option ℚ) :
    validateCustom rows cols mines = none ↔
      ∃ r c m : ℚ, rows = some r ∧ cols = some c ∧ mines = some m ∧
        5 ≤ r ∧ r ≤ 30 ∧ 5 ≤ c ∧ c ≤ 40 ∧ 1 ≤ m ∧
        m ≤ r * c - min 9 (r * c - 1) := by
  rcases rows with _ | r
  · simp [validateCustom]
  rcases cols with _ | c
  · simp [validateCustom]
  rcases mines with _ | m
  · simp [validateCustom]
  rw [validateCustom]
  dsimp only
  split_ifs with h1 h2 h3 h4
  · refine iff_of_false (by simp) ?_
    rintro ⟨r', c', m', hr, hc, hm, h5r, hr30, -⟩
    obtain rfl : r = r' := Option.some.inj hr
    rcases h1 with h1 | h1 <;> linarith
  · refine iff_of_false (by simp) ?_
    rintro ⟨r', c', m', hr, hc, hm, -, -, h5c, hc40, -⟩
    obtain rfl : c = c' := Option.some.inj hc
    rcases h2 with h2 | h2 <;> linarith
  · refine iff_of_false (by simp) ?_
    rintro ⟨r', c', m', hr, hc, hm, -, -, -, -, h1m, -⟩
    obtain rfl : m = m' := Option.some.inj hm
    linarith
  · refine iff_of_false (by simp) ?_
    rintro ⟨r', c', m', hr, hc, hm, -, -, -, -, -, hbound⟩
    obtain rfl : r = r' := Option.some.inj hr
    obtain rfl : c = c' := Option.some.inj hc
    obtain rfl : m = m' := Option.some.inj hm
    exact absurd hbound (not_le.mpr h4)
  · refine iff_of_true rfl ?_
    push_neg at h1 h2
    exact ⟨r, c, m, rfl, rfl, rfl, h1.1, h1.2, h2.1, h2.2, not_lt.mp h3, not_lt.mp h4⟩

theorem C6_validateCustom_iff_witness :
    validateCustom (some 9) (some 9) (some 10) = none :=
  (C6_validateCustom_iff (some 9) (some 9) (some 10)).mpr
    ⟨9, 9, 10, rfl, rfl, rfl, by norm_num, by norm_num, by norm_num, by norm_num,
      by norm_num, by norm_num [min_def]⟩

theorem sanitizeCfg_some_bounds (cfg : Option Cfg) (out : CfgR)
    (hs : sanitizeCfg cfg = some out) :
    5 ≤ out.rows ∧ out.rows ≤ 30 ∧ 5 ≤ out.cols ∧ out.cols ≤ 40 ∧
    1 ≤ out.mines ∧
    out.mines ≤ out.rows * out.cols - min 9 (out.rows * out.cols - 1) := by
  rcases cfg with _ | c
  · exact absurd hs (by simp [sanitizeCfg])
  rw [sanitizeCfg] at hs
  rcases hr : c.rows with _ | r <;> rw [hr] at hs
  · exact absurd hs (by simp)
  rcases hc : c.cols with _ | co <;> rw [hc] at hs
  · exact absurd hs (by simp)
  rcases hm : c.mines with _ | m <;> rw [hm] at hs
  · exact absurd hs (by simp)
  dsimp only at hs
  split_ifs at hs with h1 h2 h3
  obtain rfl : ({ rows := r, cols := co, mines := m } : CfgR) = out :=
    Option.some.inj hs
  push_neg at h1 h2 h3
  exact ⟨h1.1, h1.2, h2.1, h2.2, h3.1, h3.2⟩

/-- C10: every game started through `applyConfig` has rows in 5..30, cols in
5..40 and 1 ≤ mines ≤ cells − min(9, cells − 1); a configuration rejected by
`sanitizeCfg` (including `null` and non-finite fields) is silently replaced
by the beginner preset (9 × 9, 10 mines). -/
theorem C10_applyConfig_bounds (cfg : Option Cfg) :
    (5 ≤ (applyConfig cfg).rows ∧ (applyConfig cfg).rows ≤ 30 ∧
     5 ≤ (applyConfig cfg).cols ∧ (applyConfig cfg).cols ≤ 40 ∧
     1 ≤ (applyConfig cfg).mines ∧
     (applyConfig cfg).mines ≤ (applyConfig cfg).rows * (applyConfig cfg).cols -
       min 9 ((applyConfig cfg).rows * (applyConfig cfg).cols - 1)) ∧
    (sanitizeCfg cfg = none → applyConfig cfg = beginnerCfg) := by
  rcases hs : sanitizeCfg cfg with _ | out
  · constructor
    · rw [applyConfig, hs, Option.getD_none, beginnerCfg]
      norm_num [min_def]
    · intro _
      rw [applyConfig, hs, Option.getD_none]
  · have hb := sanitizeCfg_some_bounds cfg out hs
    constructor
    · rw [applyConfig, hs, Option.getD_some]
      exact hb
    · intro h
      exact absurd h (by simp)

theorem C10_applyConfig_bounds_witness :
    (5 ≤ (applyConfig none).rows ∧ (applyConfig none).rows ≤ 30 ∧
     5 ≤ (applyConfig none).cols ∧ (applyConfig none).cols ≤ 40 ∧
     1 ≤ (applyConfig none).mines ∧
     (applyConfig none).mines ≤ (applyConfig none).rows * (applyConfig none).cols -
       min 9 ((applyConfig none).rows * (applyConfig none).cols - 1)) ∧
    applyConfig none = beginnerCfg :=
  ⟨(C10_applyConfig_bounds none).1, (C10_applyConfig_bounds none).2 rfl⟩

theorem ensureMinesPlaced_status_cases (s : SessionState) (r c : Nat) (picks : List Pos) :
    (ensureMinesPlaced s r c picks).status = s.status ∨
    (ensureMinesPlaced s r c picks).status = GameStatus.RUNNING := by
  rw [ensureMinesPlaced]
  split
  · exact Or.inl rfl
  · exact Or.inr rfl

/-- C5: after a successful (non-detonating) reveal, and after a successful
non-detonating chord, the session reaches WON exactly when `countOpenSafe`
reports that the number of open safe cells equals the total number of safe
cells on the resulting grid. -/
theorem C5_win_iff_all_safe_open (s : SessionState) (r c : Nat) (picks : List Pos) :
    ((s.status = GameStatus.READY ∨ s.status = GameStatus.RUNNING) →
      (openCell (ensureMinesPlaced s r c picks).grid r c).hitMine = false →
      ((openAt s r c picks).status = GameStatus.WON ↔
        (countOpenSafe (openCell (ensureMinesPlaced s r c picks).grid r c).grid).1 =
          (countOpenSafe (openCell (ensureMinesPlaced s r c picks).grid r c).grid).2)) ∧
    (s.status = GameStatus.RUNNING →
      (chordOpen s.grid r c).did = true →
      (chordOpen s.grid r c).hitMine = false →
      ((chordAt s r c).status = GameStatus.WON ↔
        (countOpenSafe (chordOpen s.grid r c).grid).1 =
          (countOpenSafe (chordOpen s.grid r c).grid).2)) := by
  constructor
  · intro hst hhit
    have hguard : ¬(s.status = GameStatus.LOST ∨ s.status = GameStatus.WON) := by
      rcases hst with h | h <;> rw [h] <;> decide
    have hopen : openAt s r c picks =
        checkWin { ensureMinesPlaced s r c picks with
                   grid := (openCell (ensureMinesPlaced s r c picks).grid r c).grid } := by
      rw [openAt, if_neg hguard]
      simp only [hhit, Bool.false_eq_true, if_false]
    have hne : ({ ensureMinesPlaced s r c picks with
        grid := (openCell (ensureMinesPlaced s r c picks).grid r c).grid } :
          SessionState).status ≠ GameStatus.WON := by
      show (ensureMinesPlaced s r c picks).status ≠ GameStatus.WON
      rcases ensureMinesPlaced_status_cases s r c picks with h | h <;> rw [h]
      · rcases hst with h' | h' <;> rw [h'] <;> decide
      · decide
    rw [hopen]
    by_cases hcount : (countOpenSafe (openCell (ensureMinesPlaced s r c picks).grid r c).grid).1 =
        (countOpenSafe (openCell (ensureMinesPlaced s r c picks).grid r c).grid).2
    · rw [checkWin, if_pos ⟨hcount, hne⟩]
      exact iff_of_true rfl hcount
    · rw [checkWin, if_neg (fun hcc => hcount hcc.1)]
      exact iff_of_false hne hcount
  · intro hst hdid hhit
    have hguard : ¬s.status ≠ GameStatus.RUNNING := fun h => h hst
    have hchord : chordAt s r c = checkWin { s with grid := (chordOpen s.grid r c).grid } := by
      rw [chordAt, if_neg hguard]
      simp only [hdid, Bool.true_eq_false, if_false, hhit, Bool.false_eq_true]
    have hne : ({ s with grid := (chordOpen s.grid r c).grid } : SessionState).status ≠
        GameStatus.WON := by
      show s.status ≠ GameStatus.WON
      rw [hst]
      decide
    rw [hchord]
    by_cases hcount : (countOpenSafe (chordOpen s.grid r c).grid).1 =
        (countOpenSafe (chordOpen s.grid r c).grid).2
    · rw [checkWin, if_pos ⟨hcount, hne⟩]
      exact iff_of_true rfl hcount
    · rw [checkWin, if_neg (fun hcc => hcount hcc.1)]
      exact iff_of_false hne hcount

/-- A small mid-game session exercising the win paths: a 2 × 2 board whose
only mine (1,1) is flagged, (0,0) and (0,1) already open, and (1,0) the last
unopened safe cell. -/
def winDemoGrid : Grid :=
  { rows := 2, cols := 2,
    cell := fun q =>
      if q = (1, 1) then { mine := true, isOpen := false, flag := true, num := 0 }
      else if q = (1, 0) then { mine := false, isOpen := false, flag := false, num := 1 }
      else { mine := false, isOpen := true, flag := false, num := 1 } }

/-- The session wrapped around `winDemoGrid`, mid-game. -/
def winDemoSession : SessionState :=
  { rows := 2, cols := 2, mines := 1, grid := winDemoGrid,
    status := GameStatus.RUNNING, firstClick := false, placeCount := 1 }

theorem C5_win_iff_all_safe_open_witness :
    (openAt winDemoSession 1 0 []).status = GameStatus.WON ∧
    (chordAt winDemoSession 0 0).status = GameStatus.WON :=
  ⟨((C5_win_iff_all_safe_open winDemoSession 1 0 []).1 (Or.inr rfl) (by decide)).mpr
      (by decide),
   ((C5_win_iff_all_safe_open winDemoSession 0 0 []).2 rfl (by decide) (by decide)).mpr
      (by decide)⟩

theorem openCell_hitMine_grid (g : Grid) (r c : Nat)
    (hhit : (openCell g r c).hitMine = true) :
    (openCell g r c).grid = setOpenMany g {(r, c)} ∧ (g.cell (r, c)).mine = true := by
  rw [openCell] at hhit ⊢
  split at hhit
  · exact absurd hhit Bool.false_ne_true
  · next h1 =>
    split at hhit
    · next h2 =>
      rw [if_neg h1, if_pos h2]
      exact ⟨rfl, h2⟩
    · split at hhit
      · exact absurd hhit Bool.false_ne_true
      · exact absurd hhit Bool.false_ne_true

theorem ensureMinesPlaced_isOpen (s : SessionState) (r c : Nat) (picks : List Pos)
    (q : Pos) :
    ((ensureMinesPlaced s r c picks).grid.cell q).isOpen = (s.grid.cell q).isOpen := by
  rw [ensureMinesPlaced]
  split
  · rfl
  · exact placeMines_isOpen s.grid s.mines r c picks q

theorem revealEnd_isOpen_of_true (g : Grid) (win : Bool) (q : Pos)
    (h : (g.cell q).isOpen = true) : ((revealEnd g win).cell q).isOpen = true := by
  rw [revealEnd]
  dsimp only
  split
  · rfl
  · exact h

/-- C8: whenever `openCell` reports a mine hit during a non-terminal game,
`openAt` marks the clicked cell open and transitions to LOST in the same
call, leaving the `open` state of every safe cell as it was before the
call. -/
theorem C8_mine_hit_loses_immediately (s : SessionState) (r c : Nat) (picks : List Pos)
    (hst : s.status = GameStatus.READY ∨ s.status = GameStatus.RUNNING)
    (hhit : (openCell (ensureMinesPlaced s r c picks).grid r c).hitMine = true) :
    (openAt s r c picks).status = GameStatus.LOST ∧
    ((openAt s r c picks).grid.cell (r, c)).isOpen = true ∧
    (∀ q : Pos, ((ensureMinesPlaced s r c picks).grid.cell q).mine = false →
      ((openAt s r c picks).grid.cell q).isOpen = (s.grid.cell q).isOpen) := by
  have hguard : ¬(s.status = GameStatus.LOST ∨ s.status = GameStatus.WON) := by
    rcases hst with h | h <;> rw [h] <;> decide
  have hopen : openAt s r c picks =
      gameOver { ensureMinesPlaced s r c picks with
        grid := { (openCell (ensureMinesPlaced s r c picks).grid r c).grid with
          cell := fun q => if q = (r, c) then
              { (openCell (ensureMinesPlaced s r c picks).grid r c).grid.cell q with
                isOpen := true }
            else (openCell (ensureMinesPlaced s r c picks).grid r c).grid.cell q } }
        false := by
    rw [openAt, if_neg hguard]
    simp only [hhit, if_true]
  obtain ⟨hgrid, hmine⟩ := openCell_hitMine_grid _ r c hhit
  refine ⟨by rw [hopen]; rfl, ?_, ?_⟩
  · rw [hopen]
    apply revealEnd_isOpen_of_true
    dsimp only
    rw [if_pos rfl]
  · intro q hq
    have hne : q ≠ (r, c) := by
      intro heq
      rw [heq, hmine] at hq
      exact absurd hq (by decide)
    rw [hopen]
    show ((revealEnd _ false).cell q).isOpen = _
    rw [revealEnd]
    dsimp only
    have hmq : ((if q = (r, c) then
        { (openCell (ensureMinesPlaced s r c picks).grid r c).grid.cell q with
          isOpen := true }
      else (openCell (ensureMinesPlaced s r c picks).grid r c).grid.cell q)).mine = false := by
      rw [if_neg hne, openCell_mine]
      exact hq
    rw [if_neg (fun hcond => by rw [hmq] at hcond; exact Bool.false_ne_true hcond.2)]
    rw [if_neg hne, hgrid, setOpenMany]
    dsimp only
    rw [if_neg (fun hmem => hne (Finset.mem_singleton.mp hmem))]
    exact ensureMinesPlaced_isOpen s r c picks q

/-- A small mid-game session exercising the loss path: a 2 × 2 board with a
single unflagged closed mine at (0,1). -/
def lossDemoGrid : Grid :=
  { rows := 2, cols := 2,
    cell := fun q =>
      if q = (0, 1) then { mine := true, isOpen := false, flag := false, num := 0 }
      else { mine := false, isOpen := false, flag := false, num := 1 } }

/-- The session wrapped around `lossDemoGrid`, mid-game. -/
def lossDemoSession : SessionState :=
  { rows := 2, cols := 2, mines := 1, grid := lossDemoGrid,
    status := GameStatus.RUNNING, firstClick := false, placeCount := 1 }

theorem C8_mine_hit_loses_immediately_witness :
    (openAt lossDemoSession 0 1 []).status = GameStatus.LOST ∧
    ((openAt lossDemoSession 0 1 []).grid.cell (0, 1)).isOpen = true ∧
    ((openAt lossDemoSession 0 1 []).grid.cell (0, 0)).isOpen =
      (lossDemoSession.grid.cell (0, 0)).isOpen :=
  have h := C8_mine_hit_loses_immediately lossDemoSession 0 1 [] (Or.inr rfl) (by decide)
  ⟨h.1, h.2.1, h.2.2 (0, 0) (by decide)⟩

theorem openAt_cases (s : SessionState) (r c : Nat) (picks : List Pos) :
    openAt s r c picks = s ∨
    (∃ g : Grid, openAt s r c picks =
      gameOver { ensureMinesPlaced s r c picks with grid := g } false) ∨
    (∃ g : Grid, openAt s r c picks =
      checkWin { ensureMinesPlaced s r c picks with grid := g }) := by
  rw [openAt]
  split
  · exact Or.inl rfl
  · dsimp only
    split
    · exact Or.inr (Or.inl ⟨_, rfl⟩)
    · exact Or.inr (Or.inr ⟨_, rfl⟩)

theorem flagAt_cases (s : SessionState) (r c : Nat) :
    flagAt s r c = s ∨ flagAt s r c = { s with grid := (toggleFlag s.grid r c).2 } := by
  rw [flagAt]
  split
  · exact Or.inl rfl
  · split
    · exact Or.inl rfl
    · dsimp only
      split
      · exact Or.inl rfl
      · exact Or.inr rfl

theorem chordAt_cases (s : SessionState) (r c : Nat) :
    chordAt s r c = s ∨
    (∃ g : Grid, chordAt s r c = gameOver { s with grid := g } false) ∨
    (∃ g : Grid, chordAt s r c = checkWin { s with grid := g }) := by
  rw [chordAt]
  split
  · exact Or.inl rfl
  · dsimp only
    split
    · exact Or.inl rfl
    · split
      · exact Or.inr (Or.inl ⟨_, rfl⟩)
      · exact Or.inr (Or.inr ⟨_, rfl⟩)

theorem checkWin_ghost (s : SessionState) :
    (checkWin s).placeCount = s.placeCount ∧ (checkWin s).firstClick = s.firstClick := by
  rcases checkWin_cases s with h | h <;> rw [h] <;> exact ⟨rfl, rfl⟩

theorem ghostInv_ensure {s : SessionState} (r c : Nat) (picks : List Pos)
    (inv : s.placeCount ≤ 1 ∧ (s.firstClick = true → s.placeCount = 0)) :
    (ensureMinesPlaced s r c picks).placeCount ≤ 1 ∧
    ((ensureMinesPlaced s r c picks).firstClick = true →
      (ensureMinesPlaced s r c picks).placeCount = 0) := by
  rw [ensureMinesPlaced]
  split
  · exact inv
  · next h =>
    have hfc : s.firstClick = true := by
      cases hb : s.firstClick
      · exact absurd hb h
      · rfl
    refine ⟨?_, ?_⟩
    · show s.placeCount + 1 ≤ 1
      rw [inv.2 hfc]
    · intro hff
      exact absurd hff Bool.false_ne_true

theorem ghostInv_checkWin {t : SessionState}
    (inv : t.placeCount ≤ 1 ∧ (t.firstClick = true → t.placeCount = 0)) :
    (checkWin t).placeCount ≤ 1 ∧
    ((checkWin t).firstClick = true → (checkWin t).placeCount = 0) := by
  rcases checkWin_cases t with h | h <;> rw [h] <;> exact inv

/-- C7: within one game the session calls `placeMines` at most once — the
ghost counter of placements never exceeds 1 in any reachable state and is 0
while `firstClick` is still set; `newGame` rearms the flag, and
`ensureMinesPlaced` is a no-op whenever the flag is cleared. -/
theorem C7_placeMines_at_most_once :
    (∀ s : SessionState, Reach s →
      s.placeCount ≤ 1 ∧ (s.firstClick = true → s.placeCount = 0)) ∧
    (∀ s : SessionState, (newGame s).firstClick = true) ∧
    (∀ (s : SessionState) (r c : Nat) (picks : List Pos),
      s.firstClick = false → ensureMinesPlaced s r c picks = s) ∧
    (∀ (s : SessionState) (r c : Nat) (picks : List Pos),
      s.firstClick = true → (ensureMinesPlaced s r c picks).firstClick = false) := by
  refine ⟨?_, fun s => rfl, fun s r c picks h => by rw [ensureMinesPlaced, if_pos h],
    fun s r c picks h => by rw [ensureMinesPlaced_of_firstClick s r c picks h]⟩
  intro s hs
  induction hs with
  | init rows cols mines => exact ⟨Nat.zero_le 1, fun _ => rfl⟩
  | newGameStep _ ih => exact ⟨Nat.zero_le 1, fun _ => rfl⟩
  | configStep rows cols mines _ ih => exact ⟨Nat.zero_le 1, fun _ => rfl⟩
  | openStep r c picks _ ih =>
    rcases openAt_cases _ r c picks with h | ⟨g, h⟩ | ⟨g, h⟩ <;> rw [h]
    · exact ih
    · exact ghostInv_ensure r c picks ih
    · exact ghostInv_checkWin (ghostInv_ensure r c picks ih)
  | flagStep r c _ ih =>
    rcases flagAt_cases _ r c with h | h <;> rw [h]
    · exact ih
    · exact ih
  | chordStep r c _ ih =>
    rcases chordAt_cases _ r c with h | ⟨g, h⟩ | ⟨g, h⟩ <;> rw [h]
    · exact ih
    · exact ih
    · exact ghostInv_checkWin ih
  | overStep win _ ih => exact ih

theorem C7_placeMines_at_most_once_witness :
    (mkSession 5 5 2).placeCount ≤ 1 ∧
    (newGame (mkSession 5 5 2)).firstClick = true ∧
    ensureMinesPlaced { mkSession 5 5 2 with firstClick := false } 0 0 [] =
      { mkSession 5 5 2 with firstClick := false } ∧
    (ensureMinesPlaced (mkSession 5 5 2) 0 0 []).firstClick = false :=
  ⟨(C7_placeMines_at_most_once.1 (mkSession 5 5 2) (Reach.init 5 5 2)).1,
   C7_placeMines_at_most_once.2.1 (mkSession 5 5 2),
   C7_placeMines_at_most_once.2.2.1 { mkSession 5 5 2 with firstClick := false } 0 0 [] rfl,
   C7_placeMines_at_most_once.2.2.2 (mkSession 5 5 2) 0 0 [] rfl⟩

/-- The cell-level invariant of spec.md §3: no cell is simultaneously open
and flagged. -/
def noOpenFlag (g : Grid) : Prop :=
  ∀ q : Pos, (g.cell q).isOpen = true → (g.cell q).flag = false

theorem createEmptyGrid_noOpenFlag (rows cols : Nat) :
    noOpenFlag (createEmptyGrid rows cols) := by
  intro q h
  exact absurd h Bool.false_ne_true

theorem setOpenMany_noOpenFlag (g : Grid) (S : Finset Pos) (inv : noOpenFlag g)
    (hS : ∀ q ∈ S, (g.cell q).flag = false) : noOpenFlag (setOpenMany g S) := by
  intro q hq
  rw [setOpenMany] at hq ⊢
  dsimp only at hq ⊢
  by_cases hmem : q ∈ S
  · rw [if_pos hmem]
    exact hS q hmem
  · rw [if_neg hmem] at hq ⊢
    exact inv q hq

theorem openCell_noOpenFlag (g : Grid) (r c : Nat) (inv : noOpenFlag g) :
    noOpenFlag (openCell g r c).grid := by
  rw [openCell]
  split
  · exact inv
  · next hguard =>
    push_neg at hguard
    obtain ⟨hin, hop, hfl⟩ := hguard
    have hfl' : (g.cell (r, c)).flag = false := by
      cases hb : (g.cell (r, c)).flag
      · rfl
      · exact absurd hb hfl
    split
    · exact setOpenMany_noOpenFlag g _ inv (fun q hq => by
        rw [Finset.mem_singleton] at hq
        rw [hq]
        exact hfl')
    · split
      · exact setOpenMany_noOpenFlag g _ inv (fun q hq => by
          rw [Finset.mem_singleton] at hq
          rw [hq]
          exact hfl')
      · apply setOpenMany_noOpenFlag g _ inv
        intro q hq
        rw [Finset.mem_union] at hq
        rcases hq with hq | hq
        · rcases zeroReach_eq_or_zeroOk ((mem_floodSet_iff g (r, c) q).mp hq) with heq | hok
          · rw [heq]
            exact hfl'
          · exact hok.2.2.1
        · exact ((Finset.mem_filter.mp hq).2).2.1

theorem toggleFlag_noOpenFlag (g : Grid) (r c : Nat) (inv : noOpenFlag g) :
    noOpenFlag (toggleFlag g r c).2 := by
  rw [toggleFlag]
  split
  · exact inv
  · next hguard =>
    push_neg at hguard
    obtain ⟨hin, hop⟩ := hguard
    have hop' : (g.cell (r, c)).isOpen = false := by
      cases hb : (g.cell (r, c)).isOpen
      · rfl
      · exact absurd hb hop
    intro q hq
    dsimp only at hq ⊢
    by_cases hmem : q = (r, c)
    · rw [if_pos hmem] at hq
      dsimp only at hq
      rw [hmem, hop'] at hq
      exact absurd hq Bool.false_ne_true
    · rw [if_neg hmem] at hq ⊢
      exact inv q hq

theorem foldl_openCell_noOpenFlag (l : List Pos) :
    ∀ acc : Bool × Grid, noOpenFlag acc.2 →
      noOpenFlag (l.foldl
        (fun (acc : Bool × Grid) q =>
          let res := openCell acc.2 q.1 q.2
          (acc.1 || res.hitMine, res.grid)) acc).2 := by
  induction l with
  | nil => exact fun acc h => h
  | cons p l ih =>
    intro acc h
    exact ih _ (openCell_noOpenFlag acc.2 p.1 p.2 h)

theorem chordOpen_noOpenFlag (g : Grid) (r c : Nat) (inv : noOpenFlag g) :
    noOpenFlag (chordOpen g r c).grid := by
  rw [chordOpen]
  split
  · exact inv
  · dsimp only
    split
    · exact inv
    · exact foldl_openCell_noOpenFlag _ (false, g) inv

theorem ensureMinesPlaced_flag (s : SessionState) (r c : Nat) (picks : List Pos)
    (q : Pos) :
    ((ensureMinesPlaced s r c picks).grid.cell q).flag = (s.grid.cell q).flag := by
  rw [ensureMinesPlaced]
  split
  · rfl
  · exact placeMines_flag s.grid s.mines r c picks q

theorem ensureMinesPlaced_noOpenFlag (s : SessionState) (r c : Nat) (picks : List Pos)
    (inv : noOpenFlag s.grid) : noOpenFlag (ensureMinesPlaced s r c picks).grid := by
  intro q hq
  rw [ensureMinesPlaced_isOpen s r c picks q] at hq
  rw [ensureMinesPlaced_flag s r c picks q]
  exact inv q hq

theorem gameOver_not_playing (s : SessionState) (win : Bool) :
    ¬((gameOver s win).status = GameStatus.READY ∨
      (gameOver s win).status = GameStatus.RUNNING) := by
  rw [gameOver_status]
  cases win <;> decide

theorem openAt_terminal (s : SessionState) (r c : Nat) (picks : List Pos)
    (h : s.status = GameStatus.LOST ∨ s.status = GameStatus.WON) :
    openAt s r c picks = s := by
  rw [openAt, if_pos h]

theorem chordAt_not_running (s : SessionState) (r c : Nat)
    (h : s.status ≠ GameStatus.RUNNING) : chordAt s r c = s := by
  rw [chordAt, if_pos h]

theorem openAt_cases_exact (s : SessionState) (r c : Nat) (picks : List Pos) :
    openAt s r c picks = s ∨
    (∃ g : Grid, openAt s r c picks =
      gameOver { ensureMinesPlaced s r c picks with grid := g } false) ∨
    openAt s r c picks = checkWin { ensureMinesPlaced s r c picks with
      grid := (openCell (ensureMinesPlaced s r c picks).grid r c).grid } := by
  rw [openAt]
  split
  · exact Or.inl rfl
  · dsimp only
    split
    · exact Or.inr (Or.inl ⟨_, rfl⟩)
    · exact Or.inr (Or.inr rfl)

theorem chordAt_cases_exact (s : SessionState) (r c : Nat) :
    chordAt s r c = s ∨
    (∃ g : Grid, chordAt s r c = gameOver { s with grid := g } false) ∨
    chordAt s r c = checkWin { s with grid := (chordOpen s.grid r c).grid } := by
  rw [chordAt]
  split
  · exact Or.inl rfl
  · dsimp only
    split
    · exact Or.inl rfl
    · split
      · exact Or.inr (Or.inl ⟨_, rfl⟩)
      · exact Or.inr (Or.inr rfl)

theorem reach_noOpenFlag_of_playing (s : SessionState) (hs : Reach s) :
    (s.status = GameStatus.READY ∨ s.status = GameStatus.RUNNING) →
      noOpenFlag s.grid := by
  induction hs with
  | init rows cols mines =>
    exact fun _ => createEmptyGrid_noOpenFlag rows cols
  | newGameStep _ ih =>
    exact fun _ => createEmptyGrid_noOpenFlag _ _
  | configStep rows cols mines _ ih =>
    exact fun _ => createEmptyGrid_noOpenFlag _ _
  | openStep r c picks hprev ih =>
    rename_i s'
    by_cases hplay : s'.status = GameStatus.READY ∨ s'.status = GameStatus.RUNNING
    · rcases openAt_cases_exact s' r c picks with h | ⟨g, h⟩ | h <;> rw [h]
      · exact ih
      · intro hst'
        exact absurd hst' (gameOver_not_playing _ false)
      · intro hst'
        rcases checkWin_cases { ensureMinesPlaced s' r c picks with
          grid := (openCell (ensureMinesPlaced s' r c picks).grid r c).grid } with hc | hc
        · rw [hc] at hst'
          exact absurd hst' (gameOver_not_playing _ true)
        · rw [hc]
          exact openCell_noOpenFlag _ r c
            (ensureMinesPlaced_noOpenFlag s' r c picks (ih hplay))
    · have hterm : s'.status = GameStatus.LOST ∨ s'.status = GameStatus.WON := by
        cases hq : s'.status
        · exact absurd (Or.inl hq) hplay
        · exact absurd (Or.inr hq) hplay
        · exact Or.inr rfl
        · exact Or.inl rfl
      rw [openAt_terminal s' r c picks hterm]
      exact ih
  | flagStep r c hprev ih =>
    rename_i s'
    rcases flagAt_cases s' r c with h | h <;> rw [h]
    · exact ih
    · intro hst'
      exact toggleFlag_noOpenFlag s'.grid r c (ih hst')
  | chordStep r c hprev ih =>
    rename_i s'
    by_cases hrun : s'.status = GameStatus.RUNNING
    · rcases chordAt_cases_exact s' r c with h | ⟨g, h⟩ | h <;> rw [h]
      · exact ih
      · intro hst'
        exact absurd hst' (gameOver_not_playing _ false)
      · intro hst'
        rcases checkWin_cases { s' with grid := (chordOpen s'.grid r c).grid } with hc | hc
        · rw [hc] at hst'
          exact absurd hst' (gameOver_not_playing _ true)
        · rw [hc]
          exact chordOpen_noOpenFlag s'.grid r c (ih (Or.inr hrun))
    · rw [chordAt_not_running s' r c hrun]
      exact ih
  | overStep win _ ih =>
    intro hst'
    exact absurd hst' (gameOver_not_playing _ win)

/-- C3 (amended): in every reachable session state whose status is READY or
RUNNING, no cell is simultaneously open and flagged.  (In terminal states
the invariant can fail: `gameOver`'s end-of-game reveal opens flagged mine
cells on a loss.) -/
theorem C3_no_open_flag_while_playing (s : SessionState) (hs : Reach s)
    (hst : s.status = GameStatus.READY ∨ s.status = GameStatus.RUNNING) (q : Pos) :
    ¬((s.grid.cell q).isOpen = true ∧ (s.grid.cell q).flag = true) := by
  rintro ⟨ho, hf⟩
  rw [reach_noOpenFlag_of_playing s hs hst q ho] at hf
  exact Bool.false_ne_true hf

theorem C3_no_open_flag_while_playing_witness :
    ¬(((mkSession 5 5 2).grid.cell (0, 0)).isOpen = true ∧
      ((mkSession 5 5 2).grid.cell (0, 0)).flag = true) :=
  C3_no_open_flag_while_playing (mkSession 5 5 2) (Reach.init 5 5 2) (Or.inl rfl) (0, 0)

set_option maxRecDepth 4000 in
/-- C3 counterexample: the claimed invariant fails in a reachable state.
On a 5 × 5 game with 2 mines, open (0,0) (placing mines at (3,3) and (3,4)),
flag the mine (3,3), then open the mine (3,4): the loss reveal of `gameOver`
opens the still-flagged mine (3,3), which is then simultaneously open and
flagged. -/
theorem C3_counterexample_open_and_flagged :
    Reach (openAt (flagAt (openAt (mkSession 5 5 2) 0 0 [(3, 3), (3, 4)]) 3 3) 3 4 []) ∧
    ((openAt (flagAt (openAt (mkSession 5 5 2) 0 0 [(3, 3), (3, 4)]) 3 3) 3 4
        []).grid.cell (3, 3)).isOpen = true ∧
    ((openAt (flagAt (openAt (mkSession 5 5 2) 0 0 [(3, 3), (3, 4)]) 3 3) 3 4
        []).grid.cell (3, 3)).flag = true :=
  ⟨Reach.openStep 3 4 [] (Reach.flagStep 3 3 (Reach.openStep 0 0 [(3, 3), (3, 4)]
      (Reach.init 5 5 2))),
   by decide⟩

theorem C2_openCell_flood_exact_witness :
    (openCell (createEmptyGrid 2 2) 0 0).hitMine = false ∧
    (((openCell (createEmptyGrid 2 2) 0 0).grid.cell (1, 1)).isOpen = true ↔
      (((createEmptyGrid 2 2).cell (1, 1)).isOpen = true ∨
        zeroReach (createEmptyGrid 2 2) (0, 0) (1, 1) ∨
        inBorder (createEmptyGrid 2 2) (0, 0) (1, 1))) ∧
    (((createEmptyGrid 2 2).cell (0, 1)).flag = true ∨
        ((createEmptyGrid 2 2).cell (0, 1)).mine = true →
      ((openCell (createEmptyGrid 2 2) 0 0).grid.cell (0, 1)).isOpen =
        ((createEmptyGrid 2 2).cell (0, 1)).isOpen) :=
  have h := C2_openCell_flood_exact (createEmptyGrid 2 2) 0 0 (by decide) rfl rfl rfl rfl
  ⟨h.1, h.2.1 (1, 1), h.2.2 (0, 1)⟩
